import Mathlib

/-!
Shallow embedding of the `facile` library's State (observable value) module
(`src/state.ts`) and Time (timer registry) module, with proofs about their
specified behaviour.

Modelling conventions:
* TypeScript `T | undefined` becomes `Option T`; `undefined` is `none`.
* Strict equality (`===`) on values becomes decidable equality on `T`.
* Listeners / timer callbacks are opaque tokens; their effect (normal return
  or a raised error) is supplied externally, and the sequence of invocations
  performed by an operation is returned as an explicit event trace.
* The host scheduler (`setInterval` / `setTimeout`) is modelled as a fresh
  handle generator: each scheduling call hands out the next natural number as
  the timer id.  Host calls (`setInterval`, `setTimeout`, `clearInterval`,
  `clearTimeout`) and `console.warn` reports are recorded in an event trace.
* JS `number` arguments that the code floors (`Math.floor`) are modelled as
  rationals, so that flooring is observable.
-/

namespace Facile

/-! ## State module (`src/state.ts`) -/

/-- One listener invocation performed during a `State` value change: the
listener token, the arguments it received, and the error it raised, if any
(caught and reported by the setter, per the `try`/`catch` in the source). -/
structure NotifyEvent (T L E : Type) where
  listener : L
  newValue : Option T
  prevValue : Option T
  error : Option E
deriving DecidableEq

/-- The observable `State<T>` class: a current value (`_value`, `undefined`
when absent) and the ordered list of registered callbacks (`_callbacks`).
`L` is the type of listener tokens. -/
structure State (T L : Type) where
  value : Option T
  callbacks : List L
deriving DecidableEq

/-- The `state<T>(value?: T)` factory function: builds a `State` holding the
given (optional) initial value and no callbacks. -/
def state (T L : Type) (value : Option T) : State T L :=
  { value := value, callbacks := [] }

/-- Outcome of running one listener: `none` if the listener returned
normally, `some e` if it raised the error `e`.  `run` is the environment's
semantics for listener tokens. -/
def runListener {T L E : Type} (run : L → Option T → Option T → Except E Unit)
    (l : L) (nv pv : Option T) : Option E :=
  match run l nv pv with
  | Except.ok _ => none
  | Except.error e => some e

/-- The `value` setter of `State<T>`.  Faithful to the source: if the new
value is strictly equal to the current one, return at once (no events);
otherwise capture `previous`, assign the new value, then invoke every
registered callback in order with `(this._value, previous)`, catching (and
reporting) any error a listener raises.  Returns the updated state and the
trace of listener invocations. -/
def setValue {T L E : Type} [DecidableEq T]
    (run : L → Option T → Option T → Except E Unit)
    (s : State T L) (next : T) : State T L × List (NotifyEvent T L E) :=
  if s.value = some next then
    (s, [])
  else
    let previous := s.value
    let s' : State T L := { value := some next, callbacks := s.callbacks }
    (s', s.callbacks.map fun l =>
      { listener := l
        newValue := s'.value
        prevValue := previous
        error := runListener run l s'.value previous })

/-- The `onChange` method: pushes the callback at the end of `_callbacks`. -/
def onChange {T L : Type} (s : State T L) (callback : L) : State T L :=
  { value := s.value, callbacks := s.callbacks ++ [callback] }

/-! ## Time module (timer registry) -/

/-- Warning conditions reported through `console.warn` by the Time module. -/
inductive WarnCondition where
  | invalidInterval : WarnCondition
  | timerNotFound : Int ⊕ String → WarnCondition
deriving DecidableEq

/-- Calls made to the host environment (scheduler and warning channel) by a
registry operation, in order.  Callback tokens are naturals. -/
inductive HostEvent where
  | setIntervalCall : Nat → Int → HostEvent
  | setTimeoutCall : Nat → Int → HostEvent
  | clearIntervalCall : Int → HostEvent
  | clearTimeoutCall : Int → HostEvent
  | warn : WarnCondition → HostEvent
deriving DecidableEq

/-- The `TimerId` interface: optional name, host timer id, and whether the
timer is a one-shot (`setTimeout`) rather than repeating (`setInterval`). -/
structure TimerId where
  name : Option String
  id : Int
  isTimeout : Bool
deriving DecidableEq

/-- The module-level mutable state: the `activeTimers` array, plus the host
scheduler's fresh-handle counter (the next id `setInterval`/`setTimeout`
will return; the host hands out distinct increasing handles). -/
structure TimerState where
  activeTimers : List TimerId
  nextHostId : Nat
deriving DecidableEq

/-- The name actually stored in a registry entry: the source stores
`name || undefined`, after replacing a callback-in-name-slot (the
`(ms, callback)` overload, modelled as `none`) by `''`; so both an omitted
name and an empty-string name are stored as `undefined`. -/
def normName : Option String → Option String
  | none => none
  | some s => if s = "" then none else some s

/-- `Array.prototype.findIndex`: index of the first element satisfying `p`,
or `none` (the source's `-1`) when there is none. -/
def findIndex (p : TimerId → Bool) : List TimerId → Option Nat
  | [] => none
  | t :: ts => if p t then some 0 else (findIndex p ts).map (· + 1)

/-- `doEvery(ms, name?, callback)`: floors and takes the absolute value of
`ms`; if the result is `≤ 0`, warns and returns `-1` without touching the
host or the registry; otherwise schedules a repeating host timer, appends a
registry entry, and returns the fresh host handle. -/
def doEvery (st : TimerState) (ms : ℚ) (name : Option String) (callback : Nat) :
    Int × TimerState × List HostEvent :=
  let m : Int := |⌊ms⌋|
  if m ≤ 0 then
    (-1, st, [HostEvent.warn WarnCondition.invalidInterval])
  else
    let timerId : TimerId :=
      { name := normName name, id := (st.nextHostId : Int), isTimeout := false }
    ((st.nextHostId : Int),
     { activeTimers := st.activeTimers ++ [timerId], nextHostId := st.nextHostId + 1 },
     [HostEvent.setIntervalCall callback m])

/-- `doAfter(ms, name?, callback)`: same validation and bookkeeping as
`doEvery`, but schedules a one-shot host timer (whose wrapper is modelled
separately by `fireTimeout`) and marks the entry `isTimeout`. -/
def doAfter (st : TimerState) (ms : ℚ) (name : Option String) (callback : Nat) :
    Int × TimerState × List HostEvent :=
  let m : Int := |⌊ms⌋|
  if m ≤ 0 then
    (-1, st, [HostEvent.warn WarnCondition.invalidInterval])
  else
    let timerId : TimerId :=
      { name := normName name, id := (st.nextHostId : Int), isTimeout := true }
    ((st.nextHostId : Int),
     { activeTimers := st.activeTimers ++ [timerId], nextHostId := st.nextHostId + 1 },
     [HostEvent.setTimeoutCall callback m])

/-- Events produced by the wrapper `doAfter` passes to `setTimeout`. -/
inductive FireEvent where
  | invokeCallback : Nat → FireEvent
  | removeEntry : Int → FireEvent
deriving DecidableEq

/-- The one-shot wrapper scheduled by `doAfter`, run by the host when the
delay elapses: `try { callback() } finally { find the entry with this id
and splice it out }`.  `cbThrows` says whether the callback raises; the
`finally` block runs either way, and the raised error (if any) then
propagates to the host (last component). -/
def fireTimeout (st : TimerState) (id : Int) (callback : Nat) (cbThrows : Bool) :
    TimerState × List FireEvent × Bool :=
  match findIndex (fun i => decide (i.id = id)) st.activeTimers with
  | none => (st, [FireEvent.invokeCallback callback], cbThrows)
  | some index =>
    ({ activeTimers := st.activeTimers.eraseIdx index, nextHostId := st.nextHostId },
     [FireEvent.invokeCallback callback, FireEvent.removeEntry id], cbThrows)

/-- The predicate `stop` matches entries with: by host id when called with a
number, by stored name when called with a string (an entry whose stored
name is `undefined` never matches a string). -/
def stopMatches (ident : Int ⊕ String) (t : TimerId) : Bool :=
  match ident with
  | Sum.inl n => decide (t.id = n)
  | Sum.inr s => decide (t.name = some s)

/-- `stop(id | name)`: find the first matching entry; if none, warn
`TimerNotFound` and return `false`; otherwise cancel the host timer with
the kind-appropriate call, splice the entry out, and return `true`.
(The inner `none` branch is unreachable: `findIndex` always returns an
in-bounds index, see `findIndex_lt_length`.) -/
def stop (st : TimerState) (ident : Int ⊕ String) : Bool × TimerState × List HostEvent :=
  match findIndex (stopMatches ident) st.activeTimers with
  | none => (false, st, [HostEvent.warn (WarnCondition.timerNotFound ident)])
  | some index =>
    match st.activeTimers[index]? with
    | none => (false, st, [HostEvent.warn (WarnCondition.timerNotFound ident)])
    | some t =>
      (true,
       { activeTimers := st.activeTimers.eraseIdx index, nextHostId := st.nextHostId },
       [if t.isTimeout then HostEvent.clearTimeoutCall t.id
        else HostEvent.clearIntervalCall t.id])

/-- Registry states reachable from the initial empty registry by the
module's operations (timer creation, manual stop, one-shot auto-cleanup). -/
inductive Reachable : TimerState → Prop where
  | init : Reachable { activeTimers := [], nextHostId := 0 }
  | every (st : TimerState) (ms : ℚ) (name : Option String) (cb : Nat) :
      Reachable st → Reachable (doEvery st ms name cb).2.1
  | after (st : TimerState) (ms : ℚ) (name : Option String) (cb : Nat) :
      Reachable st → Reachable (doAfter st ms name cb).2.1
  | stopped (st : TimerState) (ident : Int ⊕ String) :
      Reachable st → Reachable (stop st ident).2.1
  | fired (st : TimerState) (id : Int) (cb : Nat) (thr : Bool) :
      Reachable st → Reachable (fireTimeout st id cb thr).1

/-! ## Helper lemmas on `findIndex`, `eraseIdx` and the registry invariant -/

theorem findIndex_eq_none_iff (p : TimerId → Bool) (l : List TimerId) :
    findIndex p l = none ↔ ∀ t ∈ l, p t = false := by
  induction l with
  | nil => simp [findIndex]
  | cons a l ih =>
    by_cases h : p a <;> simp [findIndex, h, ih]

theorem findIndex_eq_some (p : TimerId → Bool) (l : List TimerId) (j : Nat)
    (h : findIndex p l = some j) :
    ∃ pre t post, l = pre ++ t :: post ∧ pre.length = j ∧ p t = true ∧
      ∀ u ∈ pre, p u = false := by
  induction l generalizing j with
  | nil => simp [findIndex] at h
  | cons a l ih =>
    by_cases ha : p a
    · simp only [findIndex, if_pos ha] at h
      injection h with h0
      subst h0
      exact ⟨[], a, l, rfl, rfl, ha, by simp⟩
    · simp only [findIndex, ha, if_neg, Bool.false_eq_true, not_false_iff,
        Option.map_eq_some'] at h
      obtain ⟨j', hj', rfl⟩ := h
      obtain ⟨pre, t, post, rfl, rfl, hp, hpre⟩ := ih j' hj'
      refine ⟨a :: pre, t, post, rfl, by simp, hp, ?_⟩
      intro u hu
      rcases List.mem_cons.1 hu with rfl | hu
      · exact Bool.eq_false_iff.2 ha
      · exact hpre u hu

theorem findIndex_append_cons (p : TimerId → Bool) (pre : List TimerId) (t : TimerId)
    (post : List TimerId) (hpre : ∀ u ∈ pre, p u = false) (ht : p t = true) :
    findIndex p (pre ++ t :: post) = some pre.length := by
  induction pre with
  | nil => simp [findIndex, ht]
  | cons a pre ih =>
    have ha : p a = false := hpre a (by simp)
    have ih' := ih fun u hu => hpre u (by simp [hu])
    simp [findIndex, ha, ih']

theorem getElem?_append_cons (pre : List TimerId) (t : TimerId) (post : List TimerId) :
    (pre ++ t :: post)[pre.length]? = some t := by
  induction pre with
  | nil => simp
  | cons a pre ih => simpa using ih

theorem eraseIdx_append_cons (pre : List TimerId) (t : TimerId) (post : List TimerId) :
    (pre ++ t :: post).eraseIdx pre.length = pre ++ post := by
  induction pre with
  | nil => rfl
  | cons a pre ih => simp [List.eraseIdx_cons_succ, ih]

theorem findIndex_lt_length (p : TimerId → Bool) (l : List TimerId) (j : Nat)
    (h : findIndex p l = some j) : j < l.length := by
  obtain ⟨pre, t, post, rfl, rfl, -, -⟩ := findIndex_eq_some p l j h
  simp

theorem normName_ne_empty (n : Option String) : normName n ≠ some "" := by
  cases n with
  | none => simp [normName]
  | some s =>
    by_cases h : s = "" <;> simp [normName, h]

/-- Characterization of `stop` when no entry matches. -/
theorem stop_eq_of_not_found (st : TimerState) (ident : Int ⊕ String)
    (h : ∀ t ∈ st.activeTimers, stopMatches ident t = false) :
    stop st ident = (false, st, [HostEvent.warn (WarnCondition.timerNotFound ident)]) := by
  unfold stop
  rw [(findIndex_eq_none_iff _ _).2 h]

/-- Characterization of `stop` when the first matching entry is `t`,
preceded by the non-matching prefix `pre`. -/
theorem stop_eq_of_found (st : TimerState) (ident : Int ⊕ String)
    (pre : List TimerId) (t : TimerId) (post : List TimerId)
    (hsplit : st.activeTimers = pre ++ t :: post)
    (hpre : ∀ u ∈ pre, stopMatches ident u = false)
    (ht : stopMatches ident t = true) :
    stop st ident =
      (true, { activeTimers := pre ++ post, nextHostId := st.nextHostId },
       [if t.isTimeout then HostEvent.clearTimeoutCall t.id
        else HostEvent.clearIntervalCall t.id]) := by
  unfold stop
  rw [hsplit, findIndex_append_cons _ _ _ _ hpre ht]
  simp only [getElem?_append_cons, eraseIdx_append_cons]

/-- Characterization of the one-shot wrapper when no entry carries its id. -/
theorem fireTimeout_eq_of_not_found (st : TimerState) (id : Int) (cb : Nat)
    (thr : Bool) (h : ∀ t ∈ st.activeTimers, t.id ≠ id) :
    fireTimeout st id cb thr = (st, [FireEvent.invokeCallback cb], thr) := by
  unfold fireTimeout
  rw [(findIndex_eq_none_iff _ _).2 (fun t ht => by simpa using h t ht)]

/-- Characterization of the one-shot wrapper when the first entry carrying
its id is `t`, preceded by the prefix `pre` of entries with other ids. -/
theorem fireTimeout_eq_of_found (st : TimerState) (id : Int) (cb : Nat) (thr : Bool)
    (pre : List TimerId) (t : TimerId) (post : List TimerId)
    (hsplit : st.activeTimers = pre ++ t :: post)
    (hpre : ∀ u ∈ pre, u.id ≠ id) (ht : t.id = id) :
    fireTimeout st id cb thr =
      ({ activeTimers := pre ++ post, nextHostId := st.nextHostId },
       [FireEvent.invokeCallback cb, FireEvent.removeEntry id], thr) := by
  unfold fireTimeout
  rw [hsplit, findIndex_append_cons _ _ _ _ (fun u hu => by simpa using hpre u hu)
    (by simpa using ht)]
  simp only [eraseIdx_append_cons]

/-- Invariant of reachable registry states: every entry has a nonnegative
id below the host's fresh-handle counter, no entry stores an empty-string
name, and ids strictly increase along the list (creation order). -/
def TimerInv (st : TimerState) : Prop :=
  (∀ t ∈ st.activeTimers,
      0 ≤ t.id ∧ t.id < (st.nextHostId : Int) ∧ t.name ≠ some "") ∧
  st.activeTimers.Pairwise (fun a b => a.id < b.id)

theorem timerInv_eraseIdx (st : TimerState) (k : Nat) (h : TimerInv st) :
    TimerInv { activeTimers := st.activeTimers.eraseIdx k, nextHostId := st.nextHostId } := by
  obtain ⟨h1, h2⟩ := h
  exact ⟨fun t ht => h1 t ((List.eraseIdx_sublist _ k).subset ht),
    h2.sublist (List.eraseIdx_sublist _ k)⟩

theorem timerInv_push (st : TimerState) (nm : Option String) (b : Bool)
    (h : TimerInv st) :
    TimerInv { activeTimers := st.activeTimers ++ [⟨normName nm, (st.nextHostId : Int), b⟩],
               nextHostId := st.nextHostId + 1 } := by
  obtain ⟨h1, h2⟩ := h
  constructor
  · intro t ht
    rcases List.mem_append.1 ht with ht | ht
    · obtain ⟨hp, hq, hr⟩ := h1 t ht
      refine ⟨hp, ?_, hr⟩
      calc t.id < (st.nextHostId : Int) := hq
        _ < ((st.nextHostId + 1 : Nat) : Int) := by exact_mod_cast Nat.lt_succ_self _
    · rcases List.mem_singleton.1 ht with rfl
      refine ⟨Int.ofNat_nonneg _, ?_, normName_ne_empty nm⟩
      show (st.nextHostId : Int) < ((st.nextHostId + 1 : Nat) : Int)
      exact_mod_cast Nat.lt_succ_self _
  · refine List.pairwise_append.2 ⟨h2, List.pairwise_singleton _ _, ?_⟩
    intro a ha b hb
    rcases List.mem_singleton.1 hb with rfl
    exact (h1 a ha).2.1

theorem timerInv_doEvery (st : TimerState) (ms : ℚ) (name : Option String) (cb : Nat)
    (h : TimerInv st) : TimerInv (doEvery st ms name cb).2.1 := by
  unfold doEvery
  by_cases hm : |⌊ms⌋| ≤ 0
  · simpa [hm] using h
  · simpa [hm] using timerInv_push st name false h

theorem timerInv_doAfter (st : TimerState) (ms : ℚ) (name : Option String) (cb : Nat)
    (h : TimerInv st) : TimerInv (doAfter st ms name cb).2.1 := by
  unfold doAfter
  by_cases hm : |⌊ms⌋| ≤ 0
  · simpa [hm] using h
  · simpa [hm] using timerInv_push st name true h

theorem timerInv_stop (st : TimerState) (ident : Int ⊕ String)
    (h : TimerInv st) : TimerInv (stop st ident).2.1 := by
  rcases hf : findIndex (stopMatches ident) st.activeTimers with - | index
  · rw [stop_eq_of_not_found st ident ((findIndex_eq_none_iff _ _).1 hf)]
    exact h
  · obtain ⟨pre, t, post, hsplit, hlen, ht, hpre⟩ := findIndex_eq_some _ _ _ hf
    rw [stop_eq_of_found st ident pre t post hsplit hpre ht]
    have h' := timerInv_eraseIdx st pre.length h
    rw [hsplit, eraseIdx_append_cons] at h'
    exact h'

theorem timerInv_fireTimeout (st : TimerState) (id : Int) (cb : Nat) (thr : Bool)
    (h : TimerInv st) : TimerInv (fireTimeout st id cb thr).1 := by
  rcases hf : findIndex (fun i => decide (i.id = id)) st.activeTimers with - | index
  · rw [fireTimeout_eq_of_not_found st id cb thr
      (fun t ht => by simpa using (findIndex_eq_none_iff _ _).1 hf t ht)]
    exact h
  · obtain ⟨pre, t, post, hsplit, hlen, ht, hpre⟩ := findIndex_eq_some _ _ _ hf
    rw [fireTimeout_eq_of_found st id cb thr pre t post hsplit
      (fun u hu => by simpa using hpre u hu) (by simpa using ht)]
    have h' := timerInv_eraseIdx st pre.length h
    rw [hsplit, eraseIdx_append_cons] at h'
    exact h'

theorem timerInv_of_reachable (st : TimerState) (h : Reachable st) : TimerInv st := by
  induction h with
  | init => exact ⟨by simp, by simp⟩
  | every st ms name cb _ ih => exact timerInv_doEvery st ms name cb ih
  | after st ms name cb _ ih => exact timerInv_doAfter st ms name cb ih
  | stopped st ident _ ih => exact timerInv_stop st ident ih
  | fired st id cb thr _ ih => exact timerInv_fireTimeout st id cb thr ih

/-! ## Claims about the State module -/

/-- C1: a `set` whose argument is strictly equal to the current value is a
no-op — the state is unchanged and no listener is invoked; across any real
notification the previous value is never equal to the new value; and the
second of two consecutive `set` calls with the same value invokes no
listener at all. -/
theorem c1_set_equal_value_noop {T L E : Type} [DecidableEq T]
    (run : L → Option T → Option T → Except E Unit) (s : State T L) (next : T) :
    (s.value = some next → setValue run s next = (s, [])) ∧
    (∀ ev ∈ (setValue run s next).2, ev.newValue ≠ ev.prevValue) ∧
    (setValue run (setValue run s next).1 next).2 = [] := by
  refine ⟨fun h => by simp [setValue, h], ?_, ?_⟩
  · intro ev hev
    by_cases h : s.value = some next
    · simp [setValue, h] at hev
    · simp only [setValue, if_neg h] at hev
      obtain ⟨l, hl, rfl⟩ := List.mem_map.1 hev
      intro hh
      exact h hh.symm
  · by_cases h : s.value = some next
    · simp [setValue, h]
    · simp [setValue, h]

/-- Witness for C1: setting a state holding `5` to `5` leaves it unchanged
and produces no notification. -/
theorem c1_set_equal_value_noop_witness :
    setValue (fun (_ : Nat) (_ _ : Option Nat) => (Except.ok () : Except Unit Unit))
        (state Nat Nat (some 5)) 5 = (state Nat Nat (some 5), []) :=
  (c1_set_equal_value_noop _ _ _).1 (by decide)

/-- A concrete listener semantics where listener `0` raises an error and
every other listener returns normally (used by the C2 witness). -/
def c2run : Nat → Option Nat → Option Nat → Except String Unit :=
  fun l _ _ => if l = 0 then Except.error "listener failed" else Except.ok ()

/-- A concrete state with two listeners, the first of which throws under
`c2run` (used by the C2 witness). -/
def c2st : State Nat Nat :=
  { value := none, callbacks := [0, 1] }

/-- C2: on a value-changing `set`, the stored value becomes the new value
and every registered listener is invoked, in registration order, with the
pair (new value, previous value) — for every listener semantics `run`,
including ones that raise.  A raised error is caught and recorded in the
invocation trace (the setter itself returns normally, never re-throwing),
so a failing listener never prevents later listeners from being invoked. -/
theorem c2_listener_error_isolation {T L E : Type} [DecidableEq T]
    (run : L → Option T → Option T → Except E Unit) (s : State T L) (next : T)
    (h : ¬ s.value = some next) :
    (setValue run s next).1.value = some next ∧
    (setValue run s next).2.map NotifyEvent.listener = s.callbacks ∧
    ∀ ev ∈ (setValue run s next).2,
      ev.newValue = some next ∧ ev.prevValue = s.value ∧
      ev.error = runListener run ev.listener (some next) s.value := by
  refine ⟨by simp [setValue, h], ?_, ?_⟩
  · simp only [setValue, if_neg h, List.map_map]
    exact List.map_id _
  · intro ev hev
    simp only [setValue, if_neg h] at hev
    obtain ⟨l, hl, rfl⟩ := List.mem_map.1 hev
    exact ⟨rfl, rfl, rfl⟩

/-- Witness for C2: with listener 0 throwing, setting `c2st` to 7 stores 7
and still invokes both listeners 0 and 1 in order. -/
theorem c2_listener_error_isolation_witness :
    (setValue c2run c2st 7).1.value = some 7 ∧
    (setValue c2run c2st 7).2.map NotifyEvent.listener = c2st.callbacks ∧
    ∀ ev ∈ (setValue c2run c2st 7).2,
      ev.newValue = some 7 ∧ ev.prevValue = c2st.value ∧
      ev.error = runListener c2run ev.listener (some 7) c2st.value :=
  c2_listener_error_isolation c2run c2st 7 (by decide)

/-- A concrete always-succeeding listener semantics (used by the C7 witness). -/
def c7run : Nat → Option Nat → Option Nat → Except Unit Unit :=
  fun _ _ _ => Except.ok ()

/-- A concrete state with listeners 10 and 11 (used by the C7 witness). -/
def c7st : State Nat Nat :=
  { value := some 1, callbacks := [10, 11] }

/-- C7: a value-changing `set` invokes each registered listener exactly
once, in registration order, with (current, previous) where current is the
newly assigned value and previous the captured old one; `onChange` appends
at the end of the listener list and `set` preserves the listener list, so
registration order is respected identically on every `set` call. -/
theorem c7_listener_invocation_order {T L E : Type} [DecidableEq T]
    (run : L → Option T → Option T → Except E Unit) (s : State T L) (next : T)
    (cb : L) (h : ¬ s.value = some next) :
    (setValue run s next).2.map NotifyEvent.listener = s.callbacks ∧
    (∀ ev ∈ (setValue run s next).2,
       ev.newValue = some next ∧ ev.prevValue = s.value) ∧
    (setValue run s next).1.callbacks = s.callbacks ∧
    (onChange s cb).callbacks = s.callbacks ++ [cb] := by
  refine ⟨?_, ?_, ?_, rfl⟩
  · simp only [setValue, if_neg h, List.map_map]
    exact List.map_id _
  · intro ev hev
    simp only [setValue, if_neg h] at hev
    obtain ⟨l, hl, rfl⟩ := List.mem_map.1 hev
    exact ⟨rfl, rfl⟩
  · simp [setValue, h]

/-- Witness for C7 on a concrete two-listener state. -/
theorem c7_listener_invocation_order_witness :
    (setValue c7run c7st 2).2.map NotifyEvent.listener = c7st.callbacks ∧
    (∀ ev ∈ (setValue c7run c7st 2).2,
       ev.newValue = some 2 ∧ ev.prevValue = c7st.value) ∧
    (setValue c7run c7st 2).1.callbacks = c7st.callbacks ∧
    (onChange c7st 12).callbacks = c7st.callbacks ++ [12] :=
  c7_listener_invocation_order c7run c7st 2 12 (by decide)

/-- C8: reading the value of a state created with initial value `v` yields
`v`, and reading one created with no initial value yields `none`; the read
is the pure projection `State.value`, with no effect on the state. -/
theorem c8_create_get_roundtrip {T L : Type} (v : T) :
    (state T L (some v)).value = some v ∧ (state T L none).value = none :=
  ⟨rfl, rfl⟩

/-- Witness for C8 at `v = 42`. -/
theorem c8_create_get_roundtrip_witness :
    (state Nat Nat (some 42)).value = some 42 ∧ (state Nat Nat none).value = none :=
  c8_create_get_roundtrip 42

/-! ## Claims about the Time module -/

/-- C5: both timer creators normalize `ms` by flooring and then taking the
absolute value; the operation fails — warning InvalidInterval, returning
the sentinel -1, touching neither host nor registry — iff the normalized
value is ≤ 0; otherwise it schedules a host timer with the normalized
value, appends exactly one entry, and returns a fresh nonnegative handle,
so -1 is distinct from every handle a successful call can return. -/
theorem c5_interval_normalization (st : TimerState) (ms : ℚ) (name : Option String)
    (cb : Nat) :
    (|⌊ms⌋| ≤ 0 ↔
      doEvery st ms name cb = (-1, st, [HostEvent.warn WarnCondition.invalidInterval])) ∧
    (|⌊ms⌋| ≤ 0 ↔
      doAfter st ms name cb = (-1, st, [HostEvent.warn WarnCondition.invalidInterval])) ∧
    (¬ |⌊ms⌋| ≤ 0 →
      doEvery st ms name cb =
        ((st.nextHostId : Int),
         { activeTimers := st.activeTimers ++ [⟨normName name, (st.nextHostId : Int), false⟩],
           nextHostId := st.nextHostId + 1 },
         [HostEvent.setIntervalCall cb |⌊ms⌋|]) ∧
      doAfter st ms name cb =
        ((st.nextHostId : Int),
         { activeTimers := st.activeTimers ++ [⟨normName name, (st.nextHostId : Int), true⟩],
           nextHostId := st.nextHostId + 1 },
         [HostEvent.setTimeoutCall cb |⌊ms⌋|]) ∧
      0 ≤ (doEvery st ms name cb).1 ∧ 0 ≤ (doAfter st ms name cb).1) := by
  by_cases hm : |⌊ms⌋| ≤ 0
  · exact ⟨⟨fun _ => by simp [doEvery, hm], fun _ => hm⟩,
      ⟨fun _ => by simp [doAfter, hm], fun _ => hm⟩, fun hc => absurd hm hc⟩
  · refine ⟨⟨fun hc => absurd hc hm, ?_⟩, ⟨fun hc => absurd hc hm, ?_⟩, ?_⟩
    · intro heq
      have h1 : ((st.nextHostId : Int)) = -1 := by
        simpa [doEvery, hm] using congrArg (fun r => r.1) heq
      exact absurd h1 (by omega)
    · intro heq
      have h1 : ((st.nextHostId : Int)) = -1 := by
        simpa [doAfter, hm] using congrArg (fun r => r.1) heq
      exact absurd h1 (by omega)
    · intro hc
      refine ⟨by simp [doEvery, hm], by simp [doAfter, hm], ?_, ?_⟩
      · simp [doEvery, hm]
      · simp [doAfter, hm]

/-- Witness for C5: `doEvery 2` on the empty registry schedules interval 2
and returns handle 0. -/
theorem c5_interval_normalization_witness :
    doEvery ⟨[], 0⟩ 2 none 3 =
      (0, ⟨[⟨none, 0, false⟩], 1⟩, [HostEvent.setIntervalCall 3 2]) := by
  have h := (c5_interval_normalization ⟨[], 0⟩ 2 none 3).2.2 (by decide)
  simpa using h.1

/-- C6 counterexample: `every(-5, cb)` does not fail with InvalidInterval.
The code floors and then takes the absolute value, so -5 normalizes to 5: a
repeating host timer with interval 5 is scheduled, an entry is appended,
and handle 0 — not the sentinel -1 — is returned, with no warning. -/
theorem c6_counterexample :
    doEvery ⟨[], 0⟩ (-5) none 0 =
      (0, ⟨[⟨none, 0, false⟩], 1⟩, [HostEvent.setIntervalCall 0 5]) ∧
    doEvery ⟨[], 0⟩ (-5) none 0 ≠
      (-1, ⟨[], 0⟩, [HostEvent.warn WarnCondition.invalidInterval]) := by
  exact ⟨by decide, by decide⟩

/-- C6 (amended): `every(0, cb)` fails with InvalidInterval, returns the
sentinel -1 (distinct from any successful handle, which is nonnegative) and
creates no host timer and no registry entry; `every(-5, cb)`, by contrast,
succeeds: -5 is normalized to 5, a repeating host timer with interval 5 is
created, one entry is appended, and a nonnegative handle is returned. -/
theorem c6_zero_fails_minus_five_succeeds (st : TimerState) (cb : Nat) :
    doEvery st 0 none cb = (-1, st, [HostEvent.warn WarnCondition.invalidInterval]) ∧
    doEvery st (-5) none cb =
      ((st.nextHostId : Int),
       { activeTimers := st.activeTimers ++ [⟨none, (st.nextHostId : Int), false⟩],
         nextHostId := st.nextHostId + 1 },
       [HostEvent.setIntervalCall cb 5]) ∧
    0 ≤ (doEvery st (-5) none cb).1 := by
  have h0 : |⌊(0 : ℚ)⌋| = 0 := by decide
  have h5 : |⌊(-5 : ℚ)⌋| = 5 := by decide
  refine ⟨by simp [doEvery, h0], by simp [doEvery, h5, normName], by simp [doEvery, h5]⟩

/-- Witness for C6 (amended) on the empty registry. -/
theorem c6_zero_fails_minus_five_succeeds_witness :
    doEvery ⟨[], 0⟩ 0 none 7 = (-1, ⟨[], 0⟩, [HostEvent.warn WarnCondition.invalidInterval]) ∧
    doEvery ⟨[], 0⟩ (-5) none 7 =
      (0, ⟨[⟨none, 0, false⟩], 1⟩, [HostEvent.setIntervalCall 7 5]) := by
  have h := c6_zero_fails_minus_five_succeeds ⟨[], 0⟩ 7
  exact ⟨h.1, by simpa using h.2.1⟩

/-- C3: a successful `doAfter` returns the fresh handle synchronously, with
the new entry in the registry (the callback has not yet fired); when the
one-shot wrapper later fires it invokes the callback and removes that entry
exactly once — identically on the normal and the throwing path — and a
subsequent `stop` by that handle finds nothing, warns TimerNotFound and
returns false, exactly as stopping a handle that never existed does. -/
theorem c3_oneshot_auto_cleanup (st : TimerState) (ms : ℚ) (name : Option String)
    (cb : Nat) (thr : Bool) (hms : ¬ |⌊ms⌋| ≤ 0)
    (hlt : ∀ t ∈ st.activeTimers, t.id < (st.nextHostId : Int)) :
    (doAfter st ms name cb).1 = (st.nextHostId : Int) ∧
    (doAfter st ms name cb).2.1.activeTimers =
      st.activeTimers ++ [⟨normName name, (st.nextHostId : Int), true⟩] ∧
    fireTimeout (doAfter st ms name cb).2.1 (st.nextHostId : Int) cb thr =
      ({ activeTimers := st.activeTimers, nextHostId := st.nextHostId + 1 },
       [FireEvent.invokeCallback cb, FireEvent.removeEntry (st.nextHostId : Int)], thr) ∧
    stop (fireTimeout (doAfter st ms name cb).2.1 (st.nextHostId : Int) cb thr).1
        (Sum.inl (st.nextHostId : Int)) =
      (false, (fireTimeout (doAfter st ms name cb).2.1 (st.nextHostId : Int) cb thr).1,
       [HostEvent.warn (WarnCondition.timerNotFound (Sum.inl (st.nextHostId : Int)))]) ∧
    ∀ u : TimerState, (∀ t ∈ u.activeTimers, t.id ≠ (st.nextHostId : Int)) →
      stop u (Sum.inl (st.nextHostId : Int)) =
        (false, u,
         [HostEvent.warn (WarnCondition.timerNotFound (Sum.inl (st.nextHostId : Int)))]) := by
  have hstate : (doAfter st ms name cb).2.1 =
      { activeTimers := st.activeTimers ++ [⟨normName name, (st.nextHostId : Int), true⟩],
        nextHostId := st.nextHostId + 1 } := by
    simp [doAfter, hms]
  have hfire : fireTimeout (doAfter st ms name cb).2.1 (st.nextHostId : Int) cb thr =
      ({ activeTimers := st.activeTimers, nextHostId := st.nextHostId + 1 },
       [FireEvent.invokeCallback cb, FireEvent.removeEntry (st.nextHostId : Int)], thr) := by
    rw [hstate]
    have h := fireTimeout_eq_of_found
      { activeTimers := st.activeTimers ++ [⟨normName name, (st.nextHostId : Int), true⟩],
        nextHostId := st.nextHostId + 1 }
      (st.nextHostId : Int) cb thr st.activeTimers
      ⟨normName name, (st.nextHostId : Int), true⟩ [] rfl
      (fun u hu => ne_of_lt (hlt u hu)) rfl
    simpa using h
  refine ⟨by simp [doAfter, hms], by rw [hstate], hfire, ?_, ?_⟩
  · rw [hfire]
    refine stop_eq_of_not_found _ _ (fun t ht => ?_)
    simp only [stopMatches, decide_eq_false_iff_not]
    exact ne_of_lt (hlt t ht)
  · intro u hu
    refine stop_eq_of_not_found u _ (fun t ht => ?_)
    simp only [stopMatches, decide_eq_false_iff_not]
    exact hu t ht

/-- Witness for C3: after `doAfter 100` on the empty registry fires (with a
throwing callback), stopping its handle fails with TimerNotFound. -/
theorem c3_oneshot_auto_cleanup_witness :
    stop (fireTimeout (doAfter ⟨[], 0⟩ 100 none 0).2.1 0 0 true).1 (Sum.inl 0) =
      (false, (fireTimeout (doAfter ⟨[], 0⟩ 100 none 0).2.1 0 0 true).1,
       [HostEvent.warn (WarnCondition.timerNotFound (Sum.inl 0))]) := by
  have h := c3_oneshot_auto_cleanup ⟨[], 0⟩ 100 none 0 true (by decide) (by decide)
  simpa using h.2.2.2.1

/-- C4: `stop` matches by handle for a numeric identifier, by stored name
for a string identifier; with no match it warns TimerNotFound, returns
false and leaves the registry unchanged; with a match it emits the
kind-appropriate host cancellation, removes exactly the first matching
entry (keeping all others, in order) and returns true.  Concretely, after
two repeating timers named "tick", stopping "tick" cancels the
first-created one (handle 0) and leaves the second (handle 1) live. -/
theorem c4_stop_first_match (st : TimerState) (ident : Int ⊕ String) :
    (∀ n t, stopMatches (Sum.inl n) t = true ↔ t.id = n) ∧
    (∀ s' t, stopMatches (Sum.inr s') t = true ↔ t.name = some s') ∧
    ((∀ t ∈ st.activeTimers, stopMatches ident t = false) →
      stop st ident = (false, st, [HostEvent.warn (WarnCondition.timerNotFound ident)])) ∧
    (∀ pre t post, st.activeTimers = pre ++ t :: post →
      (∀ u ∈ pre, stopMatches ident u = false) → stopMatches ident t = true →
      stop st ident =
        (true, { activeTimers := pre ++ post, nextHostId := st.nextHostId },
         [if t.isTimeout then HostEvent.clearTimeoutCall t.id
          else HostEvent.clearIntervalCall t.id])) ∧
    stop (doEvery (doEvery ⟨[], 0⟩ 50 (some "tick") 0).2.1 50 (some "tick") 1).2.1
        (Sum.inr "tick") =
      (true, ⟨[⟨some "tick", 1, false⟩], 2⟩, [HostEvent.clearIntervalCall 0]) := by
  refine ⟨?_, ?_, stop_eq_of_not_found st ident,
    fun pre t post hsplit hpre ht => stop_eq_of_found st ident pre t post hsplit hpre ht,
    by decide⟩
  · intro n t
    simp [stopMatches]
  · intro s' t
    simp [stopMatches]

/-- Witness for C4: the two-"tick" scenario, derived from the theorem. -/
theorem c4_stop_first_match_witness :
    stop (doEvery (doEvery ⟨[], 0⟩ 50 (some "tick") 0).2.1 50 (some "tick") 1).2.1
        (Sum.inr "tick") =
      (true, ⟨[⟨some "tick", 1, false⟩], 2⟩, [HostEvent.clearIntervalCall 0]) :=
  (c4_stop_first_match ⟨[], 0⟩ (Sum.inr "tick")).2.2.2.2

/-- C9: a timer created with an empty-string name — like one created with
no name at all — stores an absent name; hence in every reachable registry
no stored name is the empty string, and `stop("")` never matches a live
entry: it warns TimerNotFound, returns false, and leaves the registry
unchanged (such timers can only be stopped via their numeric handle). -/
theorem c9_empty_name_stored_absent (st : TimerState) (ms : ℚ) (cb : Nat)
    (hreach : Reachable st) (hms : ¬ |⌊ms⌋| ≤ 0) :
    normName (some "") = none ∧ normName none = none ∧
    (doEvery st ms (some "") cb).2.1.activeTimers =
      st.activeTimers ++ [⟨none, (st.nextHostId : Int), false⟩] ∧
    (doAfter st ms (some "") cb).2.1.activeTimers =
      st.activeTimers ++ [⟨none, (st.nextHostId : Int), true⟩] ∧
    stop st (Sum.inr "") =
      (false, st, [HostEvent.warn (WarnCondition.timerNotFound (Sum.inr ""))]) := by
  refine ⟨rfl, rfl, by simp [doEvery, hms, normName], by simp [doAfter, hms, normName], ?_⟩
  refine stop_eq_of_not_found st _ (fun t ht => ?_)
  have h := (timerInv_of_reachable st hreach).1 t ht
  simp only [stopMatches, decide_eq_false_iff_not]
  exact h.2.2

/-- Witness for C9 on the (reachable) empty registry. -/
theorem c9_empty_name_stored_absent_witness :
    stop ⟨[], 0⟩ (Sum.inr "") =
      (false, ⟨[], 0⟩, [HostEvent.warn (WarnCondition.timerNotFound (Sum.inr ""))]) := by
  have h := c9_empty_name_stored_absent ⟨[], 0⟩ 10 0 Reachable.init (by decide)
  exact h.2.2.2.2

/-- C10: successful timer creation appends exactly one entry at the end of
the registry; a successful stop, or a one-shot auto-cleanup, removes
exactly the first matching entry, leaving every other entry and their
relative order unchanged; and in every reachable registry state the
entries' handles strictly increase along the list — entries are ordered by
creation, which is what makes first-match-by-name mean first-created. -/
theorem c10_registry_creation_order (st : TimerState) (ms : ℚ) (name : Option String)
    (cb : Nat) (ident : Int ⊕ String) (id : Int) (thr : Bool) :
    (¬ |⌊ms⌋| ≤ 0 → (doEvery st ms name cb).2.1.activeTimers =
      st.activeTimers ++ [⟨normName name, (st.nextHostId : Int), false⟩]) ∧
    (¬ |⌊ms⌋| ≤ 0 → (doAfter st ms name cb).2.1.activeTimers =
      st.activeTimers ++ [⟨normName name, (st.nextHostId : Int), true⟩]) ∧
    (∀ pre t post, st.activeTimers = pre ++ t :: post →
      (∀ u ∈ pre, stopMatches ident u = false) → stopMatches ident t = true →
      (stop st ident).2.1.activeTimers = pre ++ post) ∧
    (∀ pre t post, st.activeTimers = pre ++ t :: post →
      (∀ u ∈ pre, u.id ≠ id) → t.id = id →
      (fireTimeout st id cb thr).1.activeTimers = pre ++ post) ∧
    (Reachable st → st.activeTimers.Pairwise (fun a b => a.id < b.id)) := by
  refine ⟨fun hms => by simp [doEvery, hms], fun hms => by simp [doAfter, hms], ?_, ?_,
    fun h => (timerInv_of_reachable st h).2⟩
  · intro pre t post hsplit hpre ht
    rw [stop_eq_of_found st ident pre t post hsplit hpre ht]
  · intro pre t post hsplit hpre ht
    rw [fireTimeout_eq_of_found st id cb thr pre t post hsplit hpre ht]

/-- Witness for C10: a successful creation on the empty registry appends
exactly the one new entry. -/
theorem c10_registry_creation_order_witness :
    (doEvery ⟨[], 0⟩ 3 none 0).2.1.activeTimers = [⟨none, 0, false⟩] := by
  have h := (c10_registry_creation_order ⟨[], 0⟩ 3 none 0 (Sum.inl 0) 0 false).1 (by decide)
  simpa using h

end Facile
